import Mathlib

/-!
Verification of the diff-to-structured-review pipeline of the `gelf`
command-line assistant.

The development shallowly embeds the pure data-transformation core of the
program: the diff segmenter (`parseDiffFiles`, internal/ai/vertex.go), the
per-file reviewer and review aggregator (`reviewSingleFile`,
`generateReviewSummary`, `ReviewCodeStructured`, internal/ai/vertex.go), the
diff summary parser (`ParseDiffSummary`, internal/git/diff.go), the
line-context extractor (`getCodeContextForLine`, internal/ui/tui.go) and the
category-to-label switch of the renderer (`printComment`, internal/ui/tui.go).

Strings are modelled through their character lists; the Go standard-library
string helpers the code uses (`strings.Split`, `strings.Fields`,
`strings.Join`, `strings.HasPrefix`, `strings.TrimPrefix`,
`strings.TrimSuffix`, `strings.TrimSpace`) are given executable models below.
The AI text-completion service, the JSON decoder and terminal styling are
external collaborators: the first two are abstracted as function parameters,
and `lipgloss` style rendering (display-only colouring) is modelled as the
identity on the rendered text.
-/

set_option autoImplicit false

namespace Gelf

/-! ### Go string helpers -/

/-- `unicode.IsSpace` restricted to the ASCII white-space characters, which
are the only ones relevant to diff text. -/
def goIsSpace (c : Char) : Bool :=
  c = ' ' || c = '\t' || c = '\n' || c = '\x0b' || c = '\x0c' || c = '\r'

/-- Go `strings.Split(s, "\n")`: the list of newline-separated lines,
with `""` yielding `[""]`. -/
def splitLines (s : String) : List String :=
  (s.data.splitOn '\n').map String.mk

/-- Go `strings.Fields`: the maximal runs of non-white-space characters. -/
def goFields (s : String) : List String :=
  ((s.data.splitOnP goIsSpace).filter (fun w => w ≠ [])).map String.mk

/-- Go `strings.Join(xs, sep)`. -/
def goJoin (sep : String) : List String → String
  | [] => ""
  | [x] => x
  | x :: y :: rest => x ++ sep ++ goJoin sep (y :: rest)

/-- Go `strings.HasPrefix s p`. -/
def goHasPfx (s p : String) : Bool :=
  p.data.isPrefixOf s.data

/-- Go `strings.TrimPrefix s p`. -/
def goTrimPfx (s p : String) : String :=
  if p.data.isPrefixOf s.data then String.mk (s.data.drop p.data.length) else s

/-- Go `strings.TrimSuffix s suf`. -/
def goTrimSfx (s suf : String) : String :=
  if suf.data.isSuffixOf s.data then
    String.mk (s.data.take (s.data.length - suf.data.length))
  else s

/-- Go `strings.TrimSpace`. -/
def goTrimSpace (s : String) : String :=
  String.mk (((s.data.dropWhile goIsSpace).reverse.dropWhile goIsSpace).reverse)

/-! ### Diff Segmenter: `parseDiffFiles` (internal/ai/vertex.go) -/

/-- One per-file diff segment, as produced by `parseDiffFiles`
(the anonymous `struct { fileName, diffText string }` of vertex.go). -/
structure FileSegment where
  fileName : String
  diffText : String
  deriving DecidableEq, Repr

/-- The file name taken from a `diff --git a/... b/...` marker line: the
fourth white-space-separated field with a leading `b/` stripped
(`strings.TrimPrefix(parts[3], "b/")` in vertex.go). -/
def markerName (line : String) : String :=
  goTrimPfx ((goFields line).getD 3 "") "b/"

/-- The loop body of `parseDiffFiles` (vertex.go), processing the remaining
lines with the current file name and the lines of the current segment as
state.  A `diff --git` line emits the pending segment (when the current file
name is nonempty), updates the current file name when the marker has at
least four fields, and restarts the segment with the marker line; other
lines are appended to the current segment, or dropped before the first
marker. -/
def parseDiffAux : List String → String → List String → List FileSegment
  | [], currentFile, currentDiff =>
    if currentFile ≠ "" ∧ currentDiff ≠ [] then
      [⟨currentFile, goJoin "\n" currentDiff⟩]
    else []
  | line :: rest, currentFile, currentDiff =>
    if goHasPfx line "diff --git" then
      (if currentFile ≠ "" ∧ currentDiff ≠ [] then
        [⟨currentFile, goJoin "\n" currentDiff⟩]
       else []) ++
      parseDiffAux rest
        (if 4 ≤ (goFields line).length then markerName line else currentFile)
        [line]
    else if currentFile ≠ "" then
      parseDiffAux rest currentFile (currentDiff ++ [line])
    else
      parseDiffAux rest currentFile currentDiff

/-- `parseDiffFiles` from vertex.go: split a unified diff into per-file
segments. -/
def parseDiffFiles (diff : String) : List FileSegment :=
  parseDiffAux (splitLines diff) "" []

/-- The `diff --git` marker lines of a diff. -/
def markerLines (diff : String) : List String :=
  (splitLines diff).filter (fun l => goHasPfx l "diff --git")

/-- A marker line is well formed when it has at least four white-space
separated fields (`diff`, `--git`, the `a/` path, the `b/` path) and the
extracted file name is nonempty. -/
def WFMarker (line : String) : Prop :=
  4 ≤ (goFields line).length ∧ markerName line ≠ ""

instance (line : String) : Decidable (WFMarker line) := by
  unfold WFMarker; infer_instance

/-! ### Review data model and Per-File Reviewer (internal/ai/vertex.go) -/

/-- `ReviewComment` (vertex.go).  `ctype` models the Go field `Type`
(JSON key `"type"`), one of must, want, nits, fyi, imo when the AI follows
its instructions; `lineNo` is a Go `int` (0 = file-level comment). -/
structure ReviewComment where
  fileName : String
  lineNo : Int
  ctype : String
  message : String
  deriving DecidableEq, Repr

/-- `FileReview` (vertex.go): review data for a single file. -/
structure FileReview where
  fileName : String
  diffText : String
  comments : List ReviewComment
  deriving DecidableEq, Repr

/-- `StructuredReview` (vertex.go): the complete review data. -/
structure StructuredReview where
  summary : String
  fileReviews : List FileReview
  deriving DecidableEq, Repr

/-- The fenced-code-block fallback of `reviewSingleFile` (vertex.go): after
trimming, a response wrapped as ```` ```json ... ``` ```` has the fence
markers stripped and is trimmed again; other responses are left as the
trimmed text. -/
def stripFence (text : String) : String :=
  if goHasPfx text "```json" then
    goTrimSpace (goTrimSfx (goTrimPfx text "```json") "```")
  else text

/-- `reviewSingleFile` (vertex.go).  The AI text-completion collaborator
`ai` models one `GenerateContent` call for the per-file review prompt
(which is built from the file name and the diff text); a transport failure,
an empty candidate list or empty part collapse to `.error`.  `parse` models
`encoding/json.Unmarshal` of the response into `{comments: [...]}`; when
direct parsing fails, the response is trimmed, an enclosing markdown fence
is stripped and parsing is retried once; when both attempts fail the file's
review fails. -/
def reviewSingleFile (ai : String → String → Except String String)
    (parse : String → Option (List ReviewComment))
    (fileName diffText : String) : Except String FileReview :=
  match ai fileName diffText with
  | .error e => .error e
  | .ok text =>
    if text = "" then .error "empty text in response part"
    else
      match parse text with
      | some comments => .ok ⟨fileName, diffText, comments⟩
      | none =>
        match parse (stripFence (goTrimSpace text)) with
        | some comments => .ok ⟨fileName, diffText, comments⟩
        | none => .error "failed to parse JSON response"

/-- The fixed summary used when there are no comments at all
(`generateReviewSummary`, vertex.go). -/
def noIssuesSummary : String := "No significant issues found in the code changes."

/-- The fixed fallback summary used when the summary AI call fails
(`ReviewCodeStructured`, vertex.go). -/
def summaryFallback : String := "Failed to generate summary"

/-- `generateReviewSummary` (vertex.go): with no comments the fixed
"no significant issues" text is returned without consulting the AI;
otherwise one AI call is made.  The summary prompt is built from the
must/want/nits counts and the total, so the collaborator `sAi` is modelled
as a function of those four numbers; `diff` is passed but never used, as in
the source. -/
def generateReviewSummary (sAi : Nat → Nat → Nat → Nat → Except String String)
    (diff : String) (comments : List ReviewComment) : Except String String :=
  if comments.length = 0 then .ok noIssuesSummary
  else
    let mustCount := comments.countP (fun c => c.ctype == "must")
    let wantCount := comments.countP (fun c => c.ctype == "want")
    let nitsCount := comments.countP (fun c => c.ctype == "nits")
    match sAi mustCount wantCount nitsCount comments.length with
    | .error e => .error ("failed to generate summary: " ++ e)
    | .ok text => .ok (goTrimSpace text)

/-- The fan-out loop of `ReviewCodeStructured` (vertex.go): review each
segment in order; a file whose review fails is skipped and the loop
continues with the remaining files. -/
def collectFileReviews (ai : String → String → Except String String)
    (parse : String → Option (List ReviewComment)) :
    List FileSegment → List FileReview
  | [] => []
  | f :: rest =>
    match reviewSingleFile ai parse f.fileName f.diffText with
    | .error _ => collectFileReviews ai parse rest
    | .ok r => r :: collectFileReviews ai parse rest

/-- `ReviewCodeStructured` (vertex.go): segment the diff, review each file,
gather all comments in file order, derive the summary (falling back to the
fixed string when the summary call fails), and return the structured
review.  The Go function's error result is always `nil`; the embedding
keeps the `Except` shape of the signature, so the code path always ends in
`.ok`. -/
def ReviewCodeStructured (ai : String → String → Except String String)
    (parse : String → Option (List ReviewComment))
    (sAi : Nat → Nat → Nat → Nat → Except String String)
    (diff : String) : Except String StructuredReview :=
  let fileReviews := collectFileReviews ai parse (parseDiffFiles diff)
  let allComments := (fileReviews.map FileReview.comments).flatten
  let summary :=
    match generateReviewSummary sAi diff allComments with
    | .error _ => summaryFallback
    | .ok s => s
  .ok ⟨summary, fileReviews⟩

/-! ### Renderer category switch: `printComment` (internal/ui/tui.go) -/

/-- The category switch of `printComment` (tui.go): the label prefix the
renderer prints for a comment of the given category.  Any category other
than the five enumerated ones takes the `default` branch. -/
def commentPrefix (ctype : String) : String :=
  if ctype = "must" then "🚨 MUST FIX"
  else if ctype = "want" then "💡 SUGGEST"
  else if ctype = "nits" then "✨ STYLE"
  else if ctype = "fyi" then "ℹ️  INFO"
  else if ctype = "imo" then "💭 OPINION"
  else "💬 NOTE"

/-- The five documented review-comment categories. -/
def knownCategories : List String := ["must", "want", "nits", "fyi", "imo"]

/-- The six label prefixes `printComment` can produce: one per documented
category plus the fixed fallback `💬 NOTE`. -/
def commentPrefixes : List String :=
  ["🚨 MUST FIX", "💡 SUGGEST", "✨ STYLE", "ℹ️  INFO", "💭 OPINION", "💬 NOTE"]

/-! ### Diff Summary Parser: `ParseDiffSummary` (internal/git/diff.go) -/

/-- `FileDiff` (diff.go): per-file added/deleted line counts. -/
structure FileDiff where
  Name : String
  AddedLines : Nat
  DeletedLines : Nat
  deriving DecidableEq, Repr

/-- `DiffSummary` (diff.go). -/
structure DiffSummary where
  Files : List FileDiff
  deriving DecidableEq, Repr

/-- Split a character list at the LAST occurrence of `pat`:
`splitAtLast pat l = some (before, after)` iff `l = before ++ pat ++ after`
with `pat` not occurring later; used to model the greedy first capture
group of the file regexp. -/
def splitAtLast (pat : List Char) : List Char → Option (List Char × List Char)
  | [] => none
  | c :: cs =>
    match splitAtLast pat cs with
    | some (b, a) => some (c :: b, a)
    | none =>
      if pat.isPrefixOf (c :: cs) then some ([], (c :: cs).drop pat.length)
      else none

/-- Go regexp `^diff --git a/(.*) b/(.*)$` via `FindStringSubmatch`
(diff.go): the line matches when it starts with `diff --git a/` and the
remainder contains ` b/`; the greedy first group extends to the last
occurrence of ` b/`, the second group is the rest of the line. -/
def fileRegexMatch (line : String) : Option (String × String) :=
  if ("diff --git a/").data.isPrefixOf line.data then
    match splitAtLast (" b/").data (line.data.drop (("diff --git a/").data.length)) with
    | some (b, a) => some (String.mk b, String.mk a)
    | none => none
  else none

/-- Go regexp `^\+[^+].*$` (diff.go): a `+` followed by at least one
character that is not `+`.  A bare `+` line does not match.  (Lines here
come from splitting on newlines, so `.*$` imposes no further
constraint.) -/
def addedMatch (line : String) : Bool :=
  match line.data with
  | c1 :: c2 :: _ => c1 == '+' && c2 != '+'
  | _ => false

/-- Go regexp `^-[^-].*$` (diff.go). -/
def deletedMatch (line : String) : Bool :=
  match line.data with
  | c1 :: c2 :: _ => c1 == '-' && c2 != '-'
  | _ => false

/-- The loop of `ParseDiffSummary` (diff.go) with the current file entry as
state: a line matching the file regexp flushes the current entry and starts
a new one named after the FIRST capture group (the `a/` path); before the
first match, lines are ignored. -/
def parseSummaryAux : List String → Option FileDiff → List FileDiff
  | [], none => []
  | [], some f => [f]
  | line :: rest, cur =>
    match fileRegexMatch line with
    | some (a, _) =>
      (match cur with | some f => [f] | none => []) ++
        parseSummaryAux rest (some ⟨a, 0, 0⟩)
    | none =>
      match cur with
      | none => parseSummaryAux rest none
      | some f =>
        if addedMatch line then
          parseSummaryAux rest (some ⟨f.Name, f.AddedLines + 1, f.DeletedLines⟩)
        else if deletedMatch line then
          parseSummaryAux rest (some ⟨f.Name, f.AddedLines, f.DeletedLines + 1⟩)
        else parseSummaryAux rest (some f)

/-- `ParseDiffSummary` (diff.go). -/
def ParseDiffSummary (diff : String) : DiffSummary :=
  ⟨parseSummaryAux (splitLines diff) none⟩

/-! ### Line-Context Extractor: `getCodeContextForLine` (internal/ui/tui.go) -/

/-- Value of a list of decimal digit characters. -/
def digitsVal (l : List Char) : Nat :=
  l.foldl (fun acc c => acc * 10 + (c.toNat - 48)) 0

/-- Leading decimal digits of a character list; `none` when there is no
leading digit. -/
def parseDigits : List Char → Option Nat
  | [] => none
  | c :: cs =>
    if c.isDigit then some (digitsVal ((c :: cs).takeWhile Char.isDigit)) else none

/-- `fmt.Sscanf(s, "%d", &n)` (tui.go): an optional sign followed by at
least one digit; trailing input after the number is ignored. -/
def goScanInt (s : String) : Option Int :=
  match s.data with
  | '-' :: rest => (parseDigits rest).map (fun n => -(n : Int))
  | '+' :: rest => (parseDigits rest).map (fun n => (n : Int))
  | l => (parseDigits l).map (fun n => (n : Int))

/-- The hunk-header parsing of `getCodeContextForLine` (tui.go): take the
third field of `@@ -a,b +c,d @@`, strip the leading `+`, cut at the first
comma and scan a decimal number `n`; on success the running counter becomes
`n - 1` (the per-line increment then assigns the hunk's first non-deletion
line the number `n`); on any failure the previous counter is kept. -/
def parseNewStart (line : String) (old : Int) : Int :=
  match (goFields line)[2]? with
  | none => old
  | some p =>
    if goHasPfx p "+" then
      match goScanInt (String.mk ((p.data.drop 1).takeWhile (fun c => c != ','))) with
      | some n => n - 1
      | none => old
    else old

/-- The file-header lines `getCodeContextForLine` skips outright. -/
def isFileHeaderLine (line : String) : Bool :=
  goHasPfx line "diff --git" || goHasPfx line "index" ||
    goHasPfx line "+++" || goHasPfx line "---"

/-- The look-ahead of `getCodeContextForLine` (tui.go) run at a hunk
header: scan forward until the next hunk or file marker, tracking the
new-file line counter, and report whether some line falls within the
context window (3) of the target line. -/
def hunkScan : List String → Int → Int → Bool
  | [], _, _ => false
  | l :: rest, cur, target =>
    if goHasPfx l "@@" || goHasPfx l "diff --git" then false
    else
      let cur' := if goHasPfx l "-" then cur else cur + 1
      if (cur' - target).natAbs ≤ 3 then true else hunkScan rest cur' target

/-- The main loop of `getCodeContextForLine` (tui.go).  File-header lines
are skipped; a hunk header resets the counter and is kept iff the
look-ahead finds the target nearby; inside a hunk each line that is not a
deletion advances the new-file counter, and a line is kept iff the counter
is within the context window (3) of the target.  The lipgloss styling
applied to kept lines is display-only and modelled as the identity. -/
def ctxAux : List String → Int → Bool → Int → List String
  | [], _, _, _ => []
  | line :: rest, cur, inHunk, target =>
    if isFileHeaderLine line then ctxAux rest cur inHunk target
    else if goHasPfx line "@@" then
      let cur' := parseNewStart line cur
      (if hunkScan rest cur' target then [line] else []) ++
        ctxAux rest cur' true target
    else if inHunk then
      let cur' := if goHasPfx line "-" then cur else cur + 1
      let inHunk' :=
        match rest with
        | [] => false
        | next :: _ => !(goHasPfx next "@@" || goHasPfx next "diff --git")
      (if (cur' - target).natAbs ≤ 3 then [line] else []) ++
        ctxAux rest cur' inHunk' target
    else ctxAux rest cur inHunk target

/-- `getCodeContextForLine` (tui.go): code context around a target new-file
line number, with context window 3. -/
def getCodeContextForLine (lines : List String) (targetLine : Int) : List String :=
  ctxAux lines 0 false targetLine

/-- Claim C6's selection, written from the spec's words: a running new-file
line counter (`cur` is the number last assigned; the first non-deletion
line after a `@@ -1,5 +1,5 @@` header gets number 1 when starting from 0),
advanced on every line that is not a deletion; a hunk body line is kept iff
its number is within distance 3 of the target. -/
def windowedLines : List String → Int → Int → List String
  | [], _, _ => []
  | l :: rest, cur, target =>
    let cur' := if goHasPfx l "-" then cur else cur + 1
    (if (cur' - target).natAbs ≤ 3 then [l] else []) ++ windowedLines rest cur' target

/-! ### Concrete inputs and mock collaborators used by the witnesses -/

/-- A two-file diff. -/
def diffTwoFiles : String :=
  "diff --git a/x.go b/x.go\n+foo\ndiff --git a/y.go b/y.go\n-bar"

/-- A three-file diff. -/
def diffThreeFiles : String :=
  "diff --git a/a.go b/a.go\n+x\ndiff --git a/b.go b/b.go\n+y\ndiff --git a/c.go b/c.go\n+z"

/-- Mock per-file AI collaborator: a fixed response per file name. -/
def aiMock : String → String → Except String String :=
  fun fileName _ =>
    if fileName = "a.go" then .ok "resp-a"
    else if fileName = "b.go" then .ok "garbage"
    else .ok "resp-c"

/-- Mock JSON decoder: recognises the two well-formed mock responses and
rejects everything else. -/
def parseMock : String → Option (List ReviewComment) :=
  fun s =>
    if s = "resp-a" then some [⟨"a.go", 10, "must", "fix X"⟩]
    else if s = "resp-c" then some []
    else none

/-- Mock summary AI that always fails. -/
def sAiFail : Nat → Nat → Nat → Nat → Except String String :=
  fun _ _ _ _ => .error "mock failure"

/-- Mock summary AI that answers a fixed sentence with stray spaces. -/
def sAiOk : Nat → Nat → Nat → Nat → Except String String :=
  fun _ _ _ _ => .ok " Looks fine. "

/-- Per-file AI collaborator that always fails (transport error). -/
def aiDown : String → String → Except String String :=
  fun _ _ => .error "rpc error"

/-- JSON decoder that rejects everything. -/
def parseNever : String → Option (List ReviewComment) :=
  fun _ => none

/-- A decoder whose parsed response carries six comments, one more than
the maximum the prompt asks the AI for. -/
def parseSix : String → Option (List ReviewComment) :=
  fun _ => some (List.replicate 6 ⟨"a.go", 1, "nits", "m"⟩)

/-- A single-file diff whose body has two additions, one deletion and the
`+++`/`---` file markers. -/
def diffSummaryExample : String :=
  "diff --git a/x b/x\n--- a/x\n+++ b/x\n+a\n+b\n-c"

/-- A hunk body (for the `@@ -1,5 +1,5 @@` header): seven non-deletion
lines and one deletion, so the running new-file numbers are
1,2,2,3,4,5,6,7 and the last line is outside the window of target 3. -/
def hunkBodyExample : List String :=
  [" a", "+b", "-c", " d", " e", " f", " g", " h"]

end Gelf

namespace Gelf

/-! ## Theorems -/

/-! ### Diff Segmenter -/

/-- The segment names produced by the `parseDiffFiles` loop: with every
marker line well formed, they are the pending file name (when nonempty)
followed by the extracted name of each marker line, in order. -/
theorem parseDiffAux_map_fileName (lines : List String) :
    ∀ cf cd, (∀ l ∈ lines, goHasPfx l "diff --git" = true → WFMarker l) →
      (cf = "" ∨ cd ≠ []) →
      (parseDiffAux lines cf cd).map FileSegment.fileName =
        (if cf = "" then [] else [cf]) ++
          (lines.filter (fun l => goHasPfx l "diff --git")).map markerName := by
  induction lines with
  | nil =>
    intro cf cd _ hcd
    by_cases hcf : cf = ""
    · simp [parseDiffAux, hcf]
    · rcases hcd with h | h
      · exact absurd h hcf
      · simp [parseDiffAux, hcf, h]
  | cons line rest ih =>
    intro cf cd hwf hcd
    by_cases hm : goHasPfx line "diff --git" = true
    · have hwl : WFMarker line := hwf line (by simp) hm
      have hrec := ih (markerName line) [line]
        (fun l hl h => hwf l (by simp [hl]) h) (Or.inr (by simp))
      by_cases hcf : cf = ""
      · simp [parseDiffAux, hm, hcf, hwl.1, hwl.2, hrec]
      · rcases hcd with h | h
        · exact absurd h hcf
        · simp [parseDiffAux, hm, hcf, h, hwl.1, hwl.2, hrec]
    · by_cases hcf : cf = ""
      · have hrec := ih cf cd (fun l hl h => hwf l (by simp [hl]) h) (Or.inl hcf)
        simpa [parseDiffAux, hm, hcf] using hrec
      · rcases hcd with h | h
        · exact absurd h hcf
        · have hrec := ih cf (cd ++ [line])
            (fun l hl hx => hwf l (by simp [hl]) hx) (Or.inr (by simp))
          simpa [parseDiffAux, hm, hcf] using hrec

/-- Claim C1: for every unified diff whose `diff --git` marker lines are
well formed (at least four fields, nonempty name after stripping `b/`),
`parseDiffFiles` returns exactly one segment per marker line; the i-th
segment's fileName equals the second path token (fourth field) of the i-th
marker line with the `b/` prefix stripped, and every fileName is
nonempty. -/
theorem parseDiffFiles_segments (diff : String)
    (h : ∀ l ∈ markerLines diff, WFMarker l) :
    (parseDiffFiles diff).length = (markerLines diff).length ∧
    (parseDiffFiles diff).map FileSegment.fileName =
      (markerLines diff).map markerName ∧
    ∀ seg ∈ parseDiffFiles diff, seg.fileName ≠ "" := by
  have hwf : ∀ l ∈ splitLines diff, goHasPfx l "diff --git" = true → WFMarker l := by
    intro l hl hm
    exact h l (List.mem_filter.mpr ⟨hl, hm⟩)
  have hmap := parseDiffAux_map_fileName (splitLines diff) "" [] hwf (Or.inl rfl)
  simp only [if_pos rfl, List.nil_append] at hmap
  have hnames : (parseDiffFiles diff).map FileSegment.fileName =
      (markerLines diff).map markerName := hmap
  refine ⟨?_, hnames, ?_⟩
  · have hlen := congrArg List.length hnames
    simpa using hlen
  · intro seg hseg
    have hmem : seg.fileName ∈ (markerLines diff).map markerName := by
      rw [← hnames]
      exact List.mem_map.mpr ⟨seg, hseg, rfl⟩
    rcases List.mem_map.mp hmem with ⟨l, hl, hval⟩
    rw [← hval]
    exact (h l hl).2

/-- Witness for claim C1 at a concrete two-file diff. -/
theorem parseDiffFiles_segments_witness :
    (parseDiffFiles diffTwoFiles).length = (markerLines diffTwoFiles).length ∧
    (parseDiffFiles diffTwoFiles).map FileSegment.fileName =
      (markerLines diffTwoFiles).map markerName ∧
    ∀ seg ∈ parseDiffFiles diffTwoFiles, seg.fileName ≠ "" :=
  parseDiffFiles_segments diffTwoFiles (by decide)

theorem goJoin_cons (sep x : String) (xs : List String) (h : xs ≠ []) :
    goJoin sep (x :: xs) = x ++ sep ++ goJoin sep xs := by
  cases xs with
  | nil => exact absurd rfl h
  | cons y ys => rfl

theorem goJoin_append (sep : String) (a b : List String) (ha : a ≠ []) (hb : b ≠ []) :
    goJoin sep (a ++ b) = goJoin sep a ++ sep ++ goJoin sep b := by
  induction a with
  | nil => exact absurd rfl ha
  | cons x xs ih =>
    cases xs with
    | nil =>
      cases b with
      | nil => exact absurd rfl hb
      | cons y ys => simp [goJoin, goJoin_cons]
    | cons x2 xs2 =>
      rw [List.cons_append, goJoin_cons sep x (x2 :: xs2 ++ b) (by simp),
        ih (by simp), goJoin_cons sep x (x2 :: xs2) (by simp)]
      simp [String.append_assoc]

theorem parseDiffAux_ne_nil (lines : List String) :
    ∀ cf cd, cf ≠ "" → cd ≠ [] → parseDiffAux lines cf cd ≠ [] := by
  induction lines with
  | nil => intro cf cd h1 h2; simp [parseDiffAux, h1, h2]
  | cons line rest ih =>
    intro cf cd h1 h2
    by_cases hm : goHasPfx line "diff --git" = true
    · simp [parseDiffAux, hm, h1, h2]
    · simpa [parseDiffAux, hm, h1] using ih cf (cd ++ [line]) h1 (by simp)

/-- The segment bodies produced by the `parseDiffFiles` loop, joined back
with newlines, reproduce the pending lines followed by the remaining
input lines. -/
theorem parseDiffAux_join (lines : List String) :
    ∀ cf cd, (∀ l ∈ lines, goHasPfx l "diff --git" = true → WFMarker l) →
      cf ≠ "" → cd ≠ [] →
      goJoin "\n" ((parseDiffAux lines cf cd).map FileSegment.diffText) =
        goJoin "\n" (cd ++ lines) := by
  induction lines with
  | nil =>
    intro cf cd _ h1 h2
    simp [parseDiffAux, h1, h2, goJoin]
  | cons line rest ih =>
    intro cf cd hwf h1 h2
    by_cases hm : goHasPfx line "diff --git" = true
    · have hwl : WFMarker line := hwf line (by simp) hm
      have hne : parseDiffAux rest (markerName line) [line] ≠ [] :=
        parseDiffAux_ne_nil rest (markerName line) [line] hwl.2 (by simp)
      have hrec := ih (markerName line) [line]
        (fun l hl h => hwf l (by simp [hl]) h) hwl.2 (by simp)
      rw [goJoin_append "\n" cd (line :: rest) h2 (by simp)]
      simp only [parseDiffAux, hm, hwl.1, if_true, ite_true]
      rw [if_pos (show cf ≠ "" ∧ cd ≠ [] from ⟨h1, h2⟩), List.singleton_append,
        List.map_cons, goJoin_cons "\n" _ _ (by simpa using hne), hrec]
      simp [goJoin_cons]
    · have hrec := ih cf (cd ++ [line])
        (fun l hl hx => hwf l (by simp [hl]) hx) h1 (by simp)
      rw [show (cd ++ [line]) ++ rest = cd ++ line :: rest by simp] at hrec
      simpa [parseDiffAux, hm, h1] using hrec

theorem goJoin_data (sep : String) (ls : List String) :
    (goJoin sep ls).data = List.intercalate sep.data (ls.map String.data) := by
  induction ls with
  | nil => rfl
  | cons x xs ih =>
    cases xs with
    | nil => simp [goJoin, List.intercalate]
    | cons y ys =>
      rw [goJoin, String.data_append, String.data_append, ih]
      simp [List.intercalate, List.intersperse_cons_cons]

/-- Joining the split lines with newlines recovers the original string. -/
theorem goJoin_splitLines (s : String) : goJoin "\n" (splitLines s) = s := by
  apply String.ext
  rw [goJoin_data]
  have hmaps : (splitLines s).map String.data = s.data.splitOn '\n' := by
    simp only [splitLines, List.map_map]
    have hid : (String.data ∘ String.mk) = id := by
      funext l; rfl
    rw [hid, List.map_id]
  rw [hmaps]
  have hsep : ("\n" : String).data = ['\n'] := rfl
  rw [hsep]
  exact List.intercalate_splitOn s.data '\n'

/-- Splitting a newline-join recovers the lines, when no line contains a
newline. -/
theorem splitLines_goJoin (ls : List String) (h : ls ≠ [])
    (hnl : ∀ l ∈ ls, ('\n') ∉ l.data) :
    splitLines (goJoin "\n" ls) = ls := by
  have hdata : (goJoin "\n" ls).data = List.intercalate ['\n'] (ls.map String.data) := by
    rw [goJoin_data]
  unfold splitLines
  rw [hdata, List.splitOn_intercalate (ls.map String.data) '\n'
    (by intro l hl; rcases List.mem_map.mp hl with ⟨x, hx, rfl⟩; exact hnl x hx)
    (by simpa using h)]
  simp only [List.map_map]
  have hid : (String.mk ∘ String.data) = id := by
    funext x; rfl
  rw [hid, List.map_id]

/-- Claim C2: for a diff whose first line is a (well-formed) `diff --git`
marker and whose markers are all well formed, joining the diffText of all
segments of `parseDiffFiles`, in output order, with single newlines at the
segment boundaries, reproduces the input diff exactly. -/
theorem parseDiffFiles_reconstruct (diff : String)
    (hwf : ∀ l ∈ markerLines diff, WFMarker l)
    (hfirst : goHasPfx ((splitLines diff).headI) "diff --git" = true) :
    goJoin "\n" ((parseDiffFiles diff).map FileSegment.diffText) = diff := by
  have hne : splitLines diff ≠ [] := by
    unfold splitLines
    simpa using List.splitOnP_ne_nil (fun c => c == '\n') diff.data
  obtain ⟨first, rest, hsplit⟩ : ∃ a l, splitLines diff = a :: l := by
    cases hh : splitLines diff with
    | nil => exact absurd hh hne
    | cons a l => exact ⟨a, l, rfl⟩
  rw [hsplit] at hfirst
  simp only [List.headI] at hfirst
  have hwf' : ∀ l ∈ splitLines diff, goHasPfx l "diff --git" = true → WFMarker l :=
    fun l hl hm => hwf l (List.mem_filter.mpr ⟨hl, hm⟩)
  have hwfirst : WFMarker first := hwf' first (by rw [hsplit]; simp) hfirst
  have hjoin := parseDiffAux_join rest (markerName first) [first]
    (fun l hl hm => hwf' l (by rw [hsplit]; simp [hl]) hm) hwfirst.2 (by simp)
  have hstep : parseDiffFiles diff = parseDiffAux rest (markerName first) [first] := by
    unfold parseDiffFiles
    rw [hsplit]
    simp [parseDiffAux, hfirst, hwfirst.1]
  rw [hstep, hjoin, List.singleton_append, ← hsplit, goJoin_splitLines]

/-- Witness for claim C2 at a concrete two-file diff. -/
theorem parseDiffFiles_reconstruct_witness :
    goJoin "\n" ((parseDiffFiles diffTwoFiles).map FileSegment.diffText) =
      diffTwoFiles :=
  parseDiffFiles_reconstruct diffTwoFiles (by decide) (by decide)

/-! ### Per-File Reviewer and Review Aggregator -/

/-- Unfolding of `ReviewCodeStructured`: the result is always `.ok`, with
the file reviews collected in diff order and the summary falling back to
the fixed string when the summary call fails. -/
theorem reviewCodeStructured_eq
    (ai : String → String → Except String String)
    (parse : String → Option (List ReviewComment))
    (sAi : Nat → Nat → Nat → Nat → Except String String)
    (diff : String) :
    ReviewCodeStructured ai parse sAi diff =
      .ok ⟨(match generateReviewSummary sAi diff
              (((collectFileReviews ai parse (parseDiffFiles diff)).map
                  FileReview.comments).flatten) with
            | .error _ => summaryFallback
            | .ok s => s),
           collectFileReviews ai parse (parseDiffFiles diff)⟩ := rfl

/-- Claim C3: for a three-segment diff where the AI response for exactly
the middle file fails JSON parsing even after the fenced-code-block
fallback retry, `ReviewCodeStructured` returns (without error) a
StructuredReview whose fileReviews are exactly the two successful reviews,
in the original diff order. -/
theorem reviewCodeStructured_partial_failure
    (ai : String → String → Except String String)
    (parse : String → Option (List ReviewComment))
    (sAi : Nat → Nat → Nat → Nat → Except String String)
    (diff : String) (f1 f2 f3 : FileSegment) (r1 r3 : FileReview) (t2 : String)
    (hsplit : parseDiffFiles diff = [f1, f2, f3])
    (h1 : reviewSingleFile ai parse f1.fileName f1.diffText = .ok r1)
    (h2ai : ai f2.fileName f2.diffText = .ok t2)
    (h2ne : t2 ≠ "")
    (h2p : parse t2 = none)
    (h2q : parse (stripFence (goTrimSpace t2)) = none)
    (h3 : reviewSingleFile ai parse f3.fileName f3.diffText = .ok r3) :
    ∃ s, ReviewCodeStructured ai parse sAi diff = .ok ⟨s, [r1, r3]⟩ := by
  have h2 : reviewSingleFile ai parse f2.fileName f2.diffText =
      .error "failed to parse JSON response" := by
    simp [reviewSingleFile, h2ai, h2ne, h2p, h2q]
  have hc : collectFileReviews ai parse (parseDiffFiles diff) = [r1, r3] := by
    rw [hsplit]
    simp [collectFileReviews, h1, h2, h3]
  rw [reviewCodeStructured_eq, hc]
  exact ⟨_, rfl⟩

/-- Witness for claim C3: a concrete three-file diff with mock
collaborators where the middle file's response parses on neither
attempt. -/
theorem reviewCodeStructured_partial_failure_witness :
    ∃ s, ReviewCodeStructured aiMock parseMock sAiOk diffThreeFiles =
      .ok ⟨s, [⟨"a.go", "diff --git a/a.go b/a.go\n+x", [⟨"a.go", 10, "must", "fix X"⟩]⟩,
               ⟨"c.go", "diff --git a/c.go b/c.go\n+z", []⟩]⟩ :=
  reviewCodeStructured_partial_failure aiMock parseMock sAiOk diffThreeFiles
    ⟨"a.go", "diff --git a/a.go b/a.go\n+x"⟩
    ⟨"b.go", "diff --git a/b.go b/b.go\n+y"⟩
    ⟨"c.go", "diff --git a/c.go b/c.go\n+z"⟩
    ⟨"a.go", "diff --git a/a.go b/a.go\n+x", [⟨"a.go", 10, "must", "fix X"⟩]⟩
    ⟨"c.go", "diff --git a/c.go b/c.go\n+z", []⟩
    "garbage" (by decide) rfl rfl (by decide) rfl rfl rfl

/-- Claim C4: with zero comments the summary is the fixed "no significant
issues" string for EVERY summary collaborator (so no AI call can influence
it); with at least one comment the result is exactly the outcome of the
one summary call on the must/want/nits counts and the total; and
`ReviewCodeStructured` always returns `.ok`, substituting the fixed
fallback string when that call fails. -/
theorem generateReviewSummary_policy
    (sAi : Nat → Nat → Nat → Nat → Except String String)
    (ai : String → String → Except String String)
    (parse : String → Option (List ReviewComment))
    (diff : String) (comments : List ReviewComment) :
    (comments = [] → generateReviewSummary sAi diff comments = .ok noIssuesSummary) ∧
    (comments ≠ [] →
      generateReviewSummary sAi diff comments =
        match sAi (comments.countP (fun c => c.ctype == "must"))
            (comments.countP (fun c => c.ctype == "want"))
            (comments.countP (fun c => c.ctype == "nits")) comments.length with
        | .error e => .error ("failed to generate summary: " ++ e)
        | .ok text => .ok (goTrimSpace text)) ∧
    (ReviewCodeStructured ai parse sAi diff =
      .ok ⟨(match generateReviewSummary sAi diff
              (((collectFileReviews ai parse (parseDiffFiles diff)).map
                  FileReview.comments).flatten) with
            | .error _ => summaryFallback
            | .ok s => s),
           collectFileReviews ai parse (parseDiffFiles diff)⟩) := by
  refine ⟨?_, ?_, reviewCodeStructured_eq ai parse sAi diff⟩
  · intro h
    simp [generateReviewSummary, h]
  · intro h
    have hlen : ¬comments.length = 0 := by
      simpa [List.length_eq_zero] using h
    simp only [generateReviewSummary, hlen, if_false, ite_false]

/-- Witness for claim C4: the always-failing summary collaborator still
yields the fixed no-issues summary on zero comments, and the one-call
outcome (here a failure) on a single must-comment. -/
theorem generateReviewSummary_policy_witness :
    generateReviewSummary sAiFail "d" [] = .ok noIssuesSummary ∧
    generateReviewSummary sAiFail "d" [⟨"a.go", 10, "must", "fix X"⟩] =
      .error "failed to generate summary: mock failure" := by
  have h0 := generateReviewSummary_policy sAiFail aiDown parseNever "d"
    ([] : List ReviewComment)
  have h1 := generateReviewSummary_policy sAiFail aiDown parseNever "d"
    [⟨"a.go", 10, "must", "fix X"⟩]
  refine ⟨h0.1 rfl, ?_⟩
  rw [h1.2.1 (by decide)]
  rfl

theorem collectFileReviews_all_fail
    (ai : String → String → Except String String)
    (parse : String → Option (List ReviewComment))
    (files : List FileSegment)
    (h : ∀ f ∈ files, (reviewSingleFile ai parse f.fileName f.diffText).toOption = none) :
    collectFileReviews ai parse files = [] := by
  induction files with
  | nil => rfl
  | cons f rest ih =>
    have hf := h f (by simp)
    cases hrev : reviewSingleFile ai parse f.fileName f.diffText with
    | error e =>
      simp only [collectFileReviews, hrev]
      exact ih (fun g hg => h g (by simp [hg]))
    | ok r => rw [hrev] at hf; simp [Except.toOption] at hf

/-- Claim C7, amended: when every per-file review attempt fails,
`ReviewCodeStructured` does NOT surface an error; it returns a successful
StructuredReview with an empty fileReviews list and — since there are then
zero comments — the fixed "no significant issues" summary. -/
theorem reviewCodeStructured_all_fail
    (ai : String → String → Except String String)
    (parse : String → Option (List ReviewComment))
    (sAi : Nat → Nat → Nat → Nat → Except String String)
    (diff : String)
    (h : ∀ f ∈ parseDiffFiles diff,
      (reviewSingleFile ai parse f.fileName f.diffText).toOption = none) :
    ReviewCodeStructured ai parse sAi diff = .ok ⟨noIssuesSummary, []⟩ := by
  have hc := collectFileReviews_all_fail ai parse (parseDiffFiles diff) h
  rw [reviewCodeStructured_eq, hc]
  rfl

/-- Counterexample to claim C7 as stated: on a concrete two-file diff with
a per-file collaborator that always fails, the review invocation returns a
successful (empty) StructuredReview — not a fatal error. -/
theorem reviewCodeStructured_all_fail_counterexample :
    ReviewCodeStructured aiDown parseNever sAiOk diffTwoFiles =
      .ok ⟨noIssuesSummary, []⟩ := rfl

/-- Witness for claim C7 (amended) at a concrete all-failing input. -/
theorem reviewCodeStructured_all_fail_witness :
    ReviewCodeStructured aiDown parseNever sAiFail diffTwoFiles =
      .ok ⟨noIssuesSummary, []⟩ :=
  reviewCodeStructured_all_fail aiDown parseNever sAiFail diffTwoFiles (by decide)

/-- Counterexample to claim C9 as stated: a parsed response carrying six
comment objects produces a FileReview with six comments — the 5-comment
maximum is not enforced on the parsed response. -/
theorem reviewSingleFile_six_comments :
    (reviewSingleFile aiMock parseSix "a.go" "d").toOption.map
        (fun r => r.comments.length) = some 6 ∧ ¬(6 ≤ 5) := by
  exact ⟨rfl, by decide⟩

/-- Claim C9, amended: the comments of a FileReview are exactly the parsed
response's comment list — AI response order is preserved, and nothing is
truncated; the 5-comment maximum exists only as an instruction in the
prompt. -/
theorem reviewSingleFile_passthrough
    (ai : String → String → Except String String)
    (parse : String → Option (List ReviewComment))
    (fileName diffText text : String) (cs : List ReviewComment)
    (hai : ai fileName diffText = .ok text) (hne : text ≠ "")
    (hp : parse text = some cs) :
    reviewSingleFile ai parse fileName diffText = .ok ⟨fileName, diffText, cs⟩ := by
  simp [reviewSingleFile, hai, hne, hp]

/-- Witness for claim C9 (amended): the six parsed comments pass through
unchanged. -/
theorem reviewSingleFile_passthrough_witness :
    reviewSingleFile aiMock parseSix "a.go" "d" =
      .ok ⟨"a.go", "d", List.replicate 6 ⟨"a.go", 1, "nits", "m"⟩⟩ :=
  reviewSingleFile_passthrough aiMock parseSix "a.go" "d" "resp-a"
    (List.replicate 6 ⟨"a.go", 1, "nits", "m"⟩) rfl (by decide) rfl

/-- Claim C8: the rendered label of every comment is one of the six fixed
prefixes, and every category outside the five documented ones is
normalized to the fixed fallback label `💬 NOTE` — no sixth per-category
presentation is ever invented. -/
theorem commentPrefix_normalizes (c : ReviewComment) :
    commentPrefix c.ctype ∈ commentPrefixes ∧
      (c.ctype ∉ knownCategories → commentPrefix c.ctype = "💬 NOTE") := by
  constructor
  · unfold commentPrefix commentPrefixes
    split_ifs <;> simp
  · intro h
    have h1 : c.ctype ≠ "must" := fun e => h (by simp [knownCategories, e])
    have h2 : c.ctype ≠ "want" := fun e => h (by simp [knownCategories, e])
    have h3 : c.ctype ≠ "nits" := fun e => h (by simp [knownCategories, e])
    have h4 : c.ctype ≠ "fyi" := fun e => h (by simp [knownCategories, e])
    have h5 : c.ctype ≠ "imo" := fun e => h (by simp [knownCategories, e])
    simp [commentPrefix, h1, h2, h3, h4, h5]

/-- Witness for claim C8 at the unrecognized categories `blocker` and
`MUST` (case variant). -/
theorem commentPrefix_normalizes_witness :
    (commentPrefix "blocker" ∈ commentPrefixes ∧ commentPrefix "blocker" = "💬 NOTE") ∧
    (commentPrefix "MUST" ∈ commentPrefixes ∧ commentPrefix "MUST" = "💬 NOTE") := by
  have hb := commentPrefix_normalizes ⟨"f.go", 1, "blocker", "m"⟩
  have hm := commentPrefix_normalizes ⟨"f.go", 1, "MUST", "m"⟩
  exact ⟨⟨hb.1, hb.2 (by decide)⟩, ⟨hm.1, hm.2 (by decide)⟩⟩

/-! ### Diff Summary Parser -/

theorem addedMatch_not_deletedMatch (l : String) :
    addedMatch l = true → deletedMatch l = false := by
  unfold addedMatch deletedMatch
  cases l.data with
  | nil => simp
  | cons c1 cs =>
    cases cs with
    | nil => simp
    | cons c2 cs2 =>
      intro h
      rcases (Bool.and_eq_true _ _).mp h with ⟨h1, h2⟩
      have hc : c1 = '+' := by simpa using h1
      simp [hc]

/-- The `ParseDiffSummary` loop on a body without further file markers
adds the added-regexp and deleted-regexp match counts to the current
entry. -/
theorem parseSummaryAux_counts (body : List String) :
    ∀ f : FileDiff, (∀ l ∈ body, fileRegexMatch l = none) →
      parseSummaryAux body (some f) =
        [⟨f.Name, f.AddedLines + body.countP addedMatch,
          f.DeletedLines + body.countP deletedMatch⟩] := by
  induction body with
  | nil => intro f _; simp [parseSummaryAux]
  | cons l rest ih =>
    intro f h
    have hl : fileRegexMatch l = none := h l (by simp)
    have hrest : ∀ x ∈ rest, fileRegexMatch x = none := fun x hx => h x (by simp [hx])
    by_cases ha : addedMatch l = true
    · have hd : deletedMatch l = false := addedMatch_not_deletedMatch l ha
      simp only [parseSummaryAux, hl, ha, if_true, ite_true]
      rw [ih ⟨f.Name, f.AddedLines + 1, f.DeletedLines⟩ hrest]
      simp [List.countP_cons, ha, hd]
      omega
    · by_cases hd : deletedMatch l = true
      · simp only [parseSummaryAux, hl, ha, hd, if_false, ite_false, if_true, ite_true]
        rw [ih ⟨f.Name, f.AddedLines, f.DeletedLines + 1⟩ hrest]
        simp [List.countP_cons, ha, hd]
        omega
      · simp only [parseSummaryAux, hl, ha, hd, if_false, ite_false]
        rw [ih f hrest]
        simp [List.countP_cons, ha, hd]

/-- Claim C5, amended: in `ParseDiffSummary` a line whose first character
is `+` and whose second character exists and is not `+` increments
addedLines (likewise `-` for deletedLines); `+++`/`---` marker lines and
bare `+`/`-` lines are not counted; for a single-file diff the entry holds
exactly the two regexp match counts of the body — in particular 2 and 1
for body lines `+a`, `+b`, `-c`. -/
theorem parseDiffSummary_counts (m : String) (body : List String) (a b : String)
    (hm : fileRegexMatch m = some (a, b))
    (hbody : ∀ l ∈ body, fileRegexMatch l = none)
    (hnl : ∀ l ∈ m :: body, ('\n') ∉ l.data) :
    (ParseDiffSummary (goJoin "\n" (m :: body))).Files =
      [⟨a, body.countP addedMatch, body.countP deletedMatch⟩] := by
  have hsplit : splitLines (goJoin "\n" (m :: body)) = m :: body :=
    splitLines_goJoin (m :: body) (by simp) hnl
  unfold ParseDiffSummary
  rw [hsplit]
  simp only [parseSummaryAux, hm, List.nil_append]
  rw [parseSummaryAux_counts body ⟨a, 0, 0⟩ hbody]
  simp

/-- Counterexample to claim C5 as stated: the line `+` (an added empty
line) begins with exactly one `+` and not two, yet the regexp `^\+[^+].*$`
needs a following non-`+` character, so addedLines stays 0 where the claim
demands 1. -/
theorem parseDiffSummary_bare_plus :
    (ParseDiffSummary "diff --git a/f b/f\n+").Files.map FileDiff.AddedLines = [0] ∧
    (ParseDiffSummary "diff --git a/f b/f\n+").Files.map FileDiff.AddedLines ≠ [1] :=
  ⟨by decide, by decide⟩

/-- Witness for claim C5 (amended): the single-file diff with body
`--- a/x`, `+++ b/x`, `+a`, `+b`, `-c` yields addedLines 2 and
deletedLines 1 — the `+++` and `---` markers are not counted. -/
theorem parseDiffSummary_counts_witness :
    (ParseDiffSummary diffSummaryExample).Files = [⟨"x", 2, 1⟩] := by
  have h := parseDiffSummary_counts "diff --git a/x b/x"
    ["--- a/x", "+++ b/x", "+a", "+b", "-c"] "x" "x" (by decide) (by decide) (by decide)
  have he : goJoin "\n"
      ("diff --git a/x b/x" :: ["--- a/x", "+++ b/x", "+a", "+b", "-c"]) =
      diffSummaryExample := by decide
  rw [he] at h
  rw [h]
  decide

theorem splitAtLast_of_head_not_mem (c0 : Char) (pat : List Char) (l : List Char)
    (h : c0 ∉ l) : splitAtLast (c0 :: pat) l = none := by
  induction l with
  | nil => rfl
  | cons c cs ih =>
    have hc : c ≠ c0 := fun e => h (by simp [e])
    have hcs : c0 ∉ cs := fun m => h (by simp [m])
    have hpre : (c0 :: pat).isPrefixOf (c :: cs) = false := by
      rw [Bool.eq_false_iff]
      intro hx
      rcases List.cons_prefix_cons.mp (List.isPrefixOf_iff_prefix.mp hx) with ⟨e, -⟩
      exact hc e.symm
    simp only [splitAtLast, ih hcs, hpre]
    simp

theorem splitAtLast_space_b (p q : List Char) (hq : (' ') ∉ q) :
    splitAtLast [' ', 'b', '/'] (p ++ ' ' :: 'b' :: '/' :: q) = some (p, q) := by
  induction p with
  | nil =>
    have hnone : splitAtLast [' ', 'b', '/'] ('b' :: '/' :: q) = none := by
      apply splitAtLast_of_head_not_mem
      simp [hq]
    have hpre : ([' ', 'b', '/'] : List Char).isPrefixOf (' ' :: 'b' :: '/' :: q) = true := by
      rw [List.isPrefixOf_iff_prefix]
      simp [List.cons_prefix_cons]
    rw [List.nil_append, splitAtLast, hnone]
    simp [hpre]
  | cons c cs ih =>
    rw [List.cons_append, splitAtLast, ih]

/-- Fields of a marker line `diff --git a/<p> b/<q>` with space-free
nonempty path parts. -/
theorem goFields_marker (p q : String)
    (hp : ∀ c ∈ p.data, goIsSpace c = false) (hq : ∀ c ∈ q.data, goIsSpace c = false) :
    goFields ("diff --git a/" ++ p ++ " b/" ++ q) =
      ["diff", "--git", String.mk ('a' :: '/' :: p.data), String.mk ('b' :: '/' :: q.data)] := by
  unfold goFields
  have hdata : ("diff --git a/" ++ p ++ " b/" ++ q).data =
      ("diff").data ++ ' ' :: (("--git").data ++ ' ' ::
        (('a' :: '/' :: p.data) ++ ' ' :: ('b' :: '/' :: q.data))) := by
    have h1 : ("diff --git a/").data =
      ['d','i','f','f',' ','-','-','g','i','t',' ','a','/'] := rfl
    have h2 : (" b/").data = [' ','b','/'] := rfl
    have h3 : ("diff").data = ['d','i','f','f'] := rfl
    have h4 : ("--git").data = ['-','-','g','i','t'] := rfl
    simp [String.data_append, h1, h2, h3, h4]
  rw [hdata]
  rw [List.splitOnP_first goIsSpace ("diff").data (by decide) ' ' (by decide)]
  rw [List.splitOnP_first goIsSpace ("--git").data (by decide) ' ' (by decide)]
  rw [List.splitOnP_first goIsSpace ('a' :: '/' :: p.data)
    (by
      intro x hx
      rcases List.mem_cons.mp hx with rfl | hx2
      · decide
      · rcases List.mem_cons.mp hx2 with rfl | hx3
        · decide
        · simp [hp x hx3]) ' ' (by decide)]
  rw [List.splitOnP_eq_single goIsSpace ('b' :: '/' :: q.data)
    (by
      intro x hx
      rcases List.mem_cons.mp hx with rfl | hx2
      · decide
      · rcases List.mem_cons.mp hx2 with rfl | hx3
        · decide
        · simp [hq x hx3])]
  simp

/-- The Diff Segmenter's name for a space-free marker is the `b/` path. -/
theorem markerName_marker (p q : String)
    (hp : ∀ c ∈ p.data, goIsSpace c = false) (hq : ∀ c ∈ q.data, goIsSpace c = false) :
    markerName ("diff --git a/" ++ p ++ " b/" ++ q) = q := by
  unfold markerName
  rw [goFields_marker p q hp hq]
  have hget : (["diff", "--git", String.mk ('a' :: '/' :: p.data),
      String.mk ('b' :: '/' :: q.data)] : List String).getD 3 "" =
      String.mk ('b' :: '/' :: q.data) := rfl
  rw [hget]
  unfold goTrimPfx
  have hpre : ("b/").data.isPrefixOf (String.mk ('b' :: '/' :: q.data)).data = true := by
    rw [List.isPrefixOf_iff_prefix]
    have hb : ("b/").data = ['b', '/'] := rfl
    rw [hb]
    simp [List.cons_prefix_cons]
  simp only [hpre, if_true, ite_true]
  apply String.ext
  rfl

/-- The Diff Summary Parser's regexp on a space-free marker captures the
`a/` path in the first group and the `b/` path in the second. -/
theorem fileRegexMatch_marker (p q : String) (hq : (' ') ∉ q.data) :
    fileRegexMatch ("diff --git a/" ++ p ++ " b/" ++ q) = some (p, q) := by
  unfold fileRegexMatch
  have hdata : ("diff --git a/" ++ p ++ " b/" ++ q).data =
      ("diff --git a/").data ++ (p.data ++ ' ' :: 'b' :: '/' :: q.data) := by
    have h2 : (" b/").data = [' ','b','/'] := rfl
    simp [String.data_append, h2]
  rw [hdata]
  have hpre : ("diff --git a/").data.isPrefixOf
      (("diff --git a/").data ++ (p.data ++ ' ' :: 'b' :: '/' :: q.data)) = true := by
    rw [List.isPrefixOf_iff_prefix]
    exact List.prefix_append _ _
  simp only [hpre, if_true, ite_true]
  rw [List.drop_left]
  rw [splitAtLast_space_b p.data q.data hq]

theorem fileRegexMatch_eq_none (l : String) (h : goHasPfx l "diff --git" = false) :
    fileRegexMatch l = none := by
  unfold fileRegexMatch
  have hpre : ("diff --git a/").data.isPrefixOf l.data = false := by
    rw [Bool.eq_false_iff]
    intro hx
    have hx' := List.isPrefixOf_iff_prefix.mp hx
    have hsub : ("diff --git").data <+: ("diff --git a/").data := by decide
    have hcontra : ("diff --git").data.isPrefixOf l.data = true :=
      List.isPrefixOf_iff_prefix.mpr (hsub.trans hx')
    rw [goHasPfx] at h
    rw [h] at hcontra
    exact Bool.false_ne_true hcontra
  simp [hpre]

/-- Claim C10: for a diff headed by a marker `diff --git a/<p> b/<q>` with
differing space-free paths, `ParseDiffSummary` names the entry after the
`a/` path (first capture group) while `parseDiffFiles` names the segment
after the `b/` path — the displayed and the reviewed file name for the
same change differ. -/
theorem summaryName_vs_segmentName (p q : String) (body : List String)
    (hp : ∀ c ∈ p.data, goIsSpace c = false) (hq : ∀ c ∈ q.data, goIsSpace c = false)
    (hqne : q ≠ "") (hpq : p ≠ q)
    (hbody : ∀ l ∈ body, goHasPfx l "diff --git" = false)
    (hbnl : ∀ l ∈ body, ('\n') ∉ l.data) :
    ((ParseDiffSummary (goJoin "\n" (("diff --git a/" ++ p ++ " b/" ++ q) :: body))).Files.map
        FileDiff.Name = [p]) ∧
    ((parseDiffFiles (goJoin "\n" (("diff --git a/" ++ p ++ " b/" ++ q) :: body))).map
        FileSegment.fileName = [q]) ∧ p ≠ q := by
  set m := "diff --git a/" ++ p ++ " b/" ++ q with hm
  have hqs : (' ') ∉ q.data := by
    intro hmem
    have := hq ' ' hmem
    simp [goIsSpace] at this
  have hfm : fileRegexMatch m = some (p, q) := fileRegexMatch_marker p q hqs
  have hbody' : ∀ l ∈ body, fileRegexMatch l = none :=
    fun l hl => fileRegexMatch_eq_none l (hbody l hl)
  have hmdata : m.data = ("diff --git a/").data ++ (p.data ++ ' ' :: 'b' :: '/' :: q.data) := by
    rw [hm]
    have h2 : (" b/").data = [' ','b','/'] := rfl
    simp [String.data_append, h2]
  have hmnl : ('\n') ∉ m.data := by
    rw [hmdata]
    intro hmem
    rcases List.mem_append.mp hmem with h1 | h2
    · revert h1; decide
    · rcases List.mem_append.mp h2 with h3 | h4
      · have := hp '\n' h3
        simp [goIsSpace] at this
      · rcases List.mem_cons.mp h4 with e | h5
        · exact absurd e (by decide)
        · rcases List.mem_cons.mp h5 with e | h6
          · exact absurd e (by decide)
          · rcases List.mem_cons.mp h6 with e | h7
            · exact absurd e (by decide)
            · have := hq '\n' h7
              simp [goIsSpace] at this
  have hnl : ∀ l ∈ m :: body, ('\n') ∉ l.data := by
    intro l hl
    rcases List.mem_cons.mp hl with rfl | hl2
    · exact hmnl
    · exact hbnl l hl2
  have hsplit : splitLines (goJoin "\n" (m :: body)) = m :: body :=
    splitLines_goJoin (m :: body) (by simp) hnl
  have hmmark : goHasPfx m "diff --git" = true := by
    rw [goHasPfx, List.isPrefixOf_iff_prefix, hmdata]
    have hsub : ("diff --git").data <+: ("diff --git a/").data := by decide
    exact hsub.trans (List.prefix_append _ _)
  have hwfm : WFMarker m := by
    constructor
    · rw [hm, goFields_marker p q hp hq]
      simp
    · rw [hm, markerName_marker p q hp hq]
      exact hqne
  refine ⟨?_, ?_, hpq⟩
  · have hc := parseDiffSummary_counts m body p q hfm hbody' hnl
    rw [hc]
    rfl
  · have hmap := parseDiffAux_map_fileName (m :: body) "" ([] : List String)
      (by
        intro l hl hmark
        rcases List.mem_cons.mp hl with rfl | hl2
        · exact hwfm
        · rw [hbody l hl2] at hmark
          exact absurd hmark (by decide))
      (Or.inl rfl)
    have hfilter : (m :: body).filter (fun l => goHasPfx l "diff --git") = [m] := by
      rw [List.filter_cons_of_pos (by simpa using hmmark)]
      rw [List.filter_eq_nil_iff.mpr (by
        intro a ha
        simp [hbody a ha])]
    rw [hfilter] at hmap
    unfold parseDiffFiles
    rw [hsplit, hmap]
    simp only [List.map_cons, List.map_nil]
    rw [hm, markerName_marker p q hp hq]
    rfl

/-- Witness for claim C10 at the rename-style marker
`diff --git a/old.go b/new.go`. -/
theorem summaryName_vs_segmentName_witness :
    ((ParseDiffSummary "diff --git a/old.go b/new.go").Files.map FileDiff.Name = ["old.go"]) ∧
    ((parseDiffFiles "diff --git a/old.go b/new.go").map FileSegment.fileName = ["new.go"]) ∧
    ("old.go" : String) ≠ "new.go" := by
  have h := summaryName_vs_segmentName "old.go" "new.go" [] (by decide) (by decide)
    (by decide) (by decide) (by simp) (by simp)
  have he : goJoin "\n" (("diff --git a/" ++ "old.go" ++ " b/" ++ "new.go") :: []) =
      "diff --git a/old.go b/new.go" := by decide
  rw [he] at h
  exact h

/-! ### Line-Context Extractor -/

/-- The look-ahead succeeds exactly when the windowed selection of the
hunk body is nonempty. -/
theorem hunkScan_iff (body : List String) :
    ∀ cur target, (∀ l ∈ body, goHasPfx l "@@" = false ∧ goHasPfx l "diff --git" = false) →
      (hunkScan body cur target = true ↔ windowedLines body cur target ≠ []) := by
  induction body with
  | nil =>
    intro cur target _
    simp [hunkScan, windowedLines]
  | cons l rest ih =>
    intro cur target h
    obtain ⟨ha, hd⟩ := h l (by simp)
    have hrest := ih (if goHasPfx l "-" then cur else cur + 1) target
      (fun x hx => h x (by simp [hx]))
    by_cases hwin : (((if goHasPfx l "-" then cur else cur + 1) - target).natAbs ≤ 3)
    · simp [hunkScan, windowedLines, ha, hd, hwin]
    · simp [hunkScan, windowedLines, ha, hd, hwin, hrest]

/-- Inside a hunk whose body contains no header or hunk markers, the main
loop of `getCodeContextForLine` returns exactly the windowed selection. -/
theorem ctxAux_inHunk (body : List String) :
    ∀ cur target, (∀ l ∈ body, isFileHeaderLine l = false ∧ goHasPfx l "@@" = false ∧
        goHasPfx l "diff --git" = false) →
      ctxAux body cur true target = windowedLines body cur target := by
  induction body with
  | nil => intro cur target _; rfl
  | cons l rest ih =>
    intro cur target h
    obtain ⟨hh, ha, hd⟩ := h l (by simp)
    cases rest with
    | nil =>
      simp [ctxAux, hh, ha, windowedLines]
    | cons next rest2 =>
      obtain ⟨hh2, ha2, hd2⟩ := h next (by simp)
      have hrec := ih (if goHasPfx l "-" then cur else cur + 1) target
        (fun x hx => h x (by simp [hx]))
      rw [ctxAux]
      simp only [hh, ha, ha2, hd2]
      simp only [Bool.false_eq_true, if_false, ite_false, if_true, ite_true,
        Bool.or_false, Bool.false_or, Bool.not_false]
      rw [hrec]
      simp [windowedLines]

/-- Claim C6: for a diff consisting of the single hunk `@@ -1,5 +1,5 @@`
and target line 3 with context window 3, `getCodeContextForLine` returns
the hunk header (iff some body line is within the window) followed by
exactly those hunk body lines whose running new-file line number — the
counter starts at the hunk's new start and advances on every non-deletion
line — lies within distance 3 of the target; all lines further away are
excluded. -/
theorem getCodeContext_window (body : List String)
    (h : ∀ l ∈ body, isFileHeaderLine l = false ∧ goHasPfx l "@@" = false ∧
      goHasPfx l "diff --git" = false) :
    getCodeContextForLine ("@@ -1,5 +1,5 @@" :: body) 3 =
      (if windowedLines body 0 3 = [] then [] else ["@@ -1,5 +1,5 @@"]) ++
        windowedLines body 0 3 := by
  unfold getCodeContextForLine
  have hhd : isFileHeaderLine "@@ -1,5 +1,5 @@" = false := by decide
  have hat : goHasPfx "@@ -1,5 +1,5 @@" "@@" = true := by decide
  have hpn : parseNewStart "@@ -1,5 +1,5 @@" 0 = 0 := by decide
  simp only [ctxAux, hhd, hat, hpn, Bool.false_eq_true, if_false, ite_false, if_true,
    ite_true]
  rw [ctxAux_inHunk body 0 3 h]
  have hs := hunkScan_iff body 0 3 (fun l hl => ⟨(h l hl).2.1, (h l hl).2.2⟩)
  by_cases hw : windowedLines body 0 3 = []
  · have hfalse : hunkScan body 0 3 = false := by
      rcases hb : hunkScan body 0 3 with _ | _
      · rfl
      · exact absurd (hs.mp hb) (by simp [hw])
    simp [hfalse, hw]
  · have htrue : hunkScan body 0 3 = true := by
      rcases hb : hunkScan body 0 3 with _ | _
      · exact absurd hw (by simpa [hb] using (not_imp_not.mpr hs.mpr) (by simp [hb]))
      · rfl
    simp [htrue, hw]

/-- Witness for claim C6: in an eight-line hunk body the lines numbered 1
through 6 (including a deletion sharing number 2) are kept and the line
numbered 7 is excluded; the hunk header is kept. -/
theorem getCodeContext_window_witness :
    getCodeContextForLine ("@@ -1,5 +1,5 @@" :: hunkBodyExample) 3 =
      ["@@ -1,5 +1,5 @@", " a", "+b", "-c", " d", " e", " f", " g"] := by
  rw [getCodeContext_window hunkBodyExample (by decide)]
  decide

end Gelf
